import Mathlib

/-!
Verification of the cloud host status reconciliation engine of the
evergreen repository, together with the version-history query and the
generated REST revision mapping.

The engine itself (the `cloudHostReadyJob` unit) is exercised by
`units/host_status_test.go`; its definitions below are modelled from the
specification (sections 2-7 of the spec), faithful to the spec text, since
the job source file is not part of the provided sources.  The
version-history query is translated from `model/version.go`, and the
revision mapping from `rest/model/testdata/expected/basic.go`.
-/

set_option autoImplicit false

/-- Modelled from the spec: the closed set of host lifecycle states that the
reconciliation engine reads and writes (spec 4.3).  Downstream states owned
by other subsystems are not reachable by this engine and are not modelled. -/
inductive HostStatus where
  | starting
  | provisioning
  | terminating
  | terminated
  deriving DecidableEq, Repr

/-- Modelled from the spec: `Terminated` and `Terminating` are the terminal
lifecycle states (spec 4.3). -/
def HostStatus.isTerminal : HostStatus → Bool
  | .terminated => true
  | .terminating => true
  | _ => false

/-- Modelled from the spec: one host record of the Host Store (spec section 3):
unique identifier, provider name, optional region from the distro provider
settings, and current lifecycle status. -/
structure Host where
  id : String
  provider : String
  region : Option String
  status : HostStatus
  deriving DecidableEq, Repr

/-- Modelled from the spec: the (provider, region) grouping key of a host;
hosts lacking provider settings fall into the empty region key (spec 4.1). -/
def hostKey (h : Host) : String × String :=
  (h.provider, h.region.getD "")

/-- Modelled from the spec: the candidate set loaded at the start of a pass:
the non-terminal hosts of the store (spec 4.5 and glossary). -/
def candidateHosts (store : List Host) : List Host :=
  store.filter (fun h => !h.status.isTerminal)

/-- The single-quote character, used by the provider error-text grammar. -/
def squote : Char := Char.ofNat 39

/-- The single-quote character as a one-character string. -/
def quoteStr : String := String.singleton squote

/-- Splits a character list at every occurrence of `c`; the accumulator holds
the current piece reversed. -/
def splitOnCharAux (c : Char) : List Char → List Char → List (List Char)
  | [], acc => [acc.reverse]
  | x :: xs, acc =>
    if x == c then acc.reverse :: splitOnCharAux c xs []
    else splitOnCharAux c xs (x :: acc)

/-- Splits a character list at every occurrence of `c`. -/
def splitOnChar (c : Char) (l : List Char) : List (List Char) :=
  splitOnCharAux c l []

/-- Drops leading space characters. -/
def dropWhileSpace : List Char → List Char
  | [] => []
  | c :: cs => if c == ' ' then dropWhileSpace cs else c :: cs

/-- Trims leading and trailing space characters. -/
def trimSpaces (l : List Char) : List Char :=
  dropWhileSpace ((dropWhileSpace l.reverse).reverse)

/-- Whether `pat` occurs at the start of the second list. -/
def charsStartWith : List Char → List Char → Bool
  | [], _ => true
  | _ :: _, [] => false
  | p :: ps, t :: ts => p == t && charsStartWith ps ts

/-- Whether `pat` occurs anywhere inside the second list. -/
def charsContains (pat : List Char) : List Char → Bool
  | [] => pat.isEmpty
  | t :: ts => charsStartWith pat (t :: ts) || charsContains pat ts

/-- Modelled from the spec: the parser of the Unknown-Instance Terminator
(spec 4.4 step 1 and section 6): an error string is recognizable when it
carries a "does not exist / not found" phrase and embeds exactly one quoted,
comma-separated identifier list; on any other shape the parser returns
`none` rather than guessing (spec 4.4 step 2). -/
def parseUnknownInstanceIDs (text : String) : Option (List String) :=
  if charsContains "do not exist".data text.data
      || charsContains "not found".data text.data then
    match splitOnChar squote text.data with
    | [_, idsPart, _] =>
      some ((splitOnChar ',' idsPart).map (fun cs => String.mk (trimSpaces cs)))
    | _ => none
  else none

/-- Modelled from the spec: appends the identifier `i` to the batch with key
`k`, creating the batch at the end when no batch has that key yet; within a
batch input order is preserved (spec 4.1). -/
def insertHost (k : String × String) (i : String) :
    List ((String × String) × List String) → List ((String × String) × List String)
  | [] => [(k, [i])]
  | b :: bs => if b.1 == k then (b.1, b.2 ++ [i]) :: bs else b :: insertHost k i bs

/-- Modelled from the spec: the Batch Planner (spec 4.1): a pure function
grouping the candidate hosts into (provider, region) batches of host
identifiers, preserving input order within each batch. -/
def planBatches (hosts : List Host) : List ((String × String) × List String) :=
  hosts.foldl (fun acc h => insertHost (hostKey h) h.id acc) []

/-- The identifier list of the batch with key `k`, or `[]` when absent. -/
def batchIds (bs : List ((String × String) × List String)) (k : String × String) :
    List String :=
  match bs.find? (fun b => b.1 == k) with
  | some b => b.2
  | none => []

/-- Modelled from the spec: a status write issued by the engine to the Host
Store.  Lifecycle transitions of the State Reconciler are conditional
updates keyed on (host identifier, expected prior status) (spec 4.3);
unknown-instance terminations are applied independent of the current status
field value, relying on the store's own idempotence (spec 4.4 step 3). -/
inductive StoreWrite where
  | condUpdate (hostID : String) (expected : HostStatus) (newStatus : HostStatus)
  | setStatus (hostID : String) (newStatus : HostStatus)
  deriving DecidableEq, Repr

/-- The host identifier a write is keyed on. -/
def StoreWrite.target : StoreWrite → String
  | .condUpdate i _ _ => i
  | .setStatus i _ => i

/-- Whether a write carries an expected-prior-status condition. -/
def StoreWrite.isConditional : StoreWrite → Bool
  | .condUpdate _ _ _ => true
  | .setStatus _ _ => false

/-- The effect of one store write on one host record: a conditional update
applies only when both the identifier and the expected prior status match,
and otherwise leaves the record unchanged (spec section 3 and 9). -/
def applyWriteHost (w : StoreWrite) (h : Host) : Host :=
  match w with
  | .condUpdate i e n =>
    if h.id == i && h.status == e then { h with status := n } else h
  | .setStatus i n =>
    if h.id == i then { h with status := n } else h

/-- The effect of one store write on the whole store. -/
def applyWrite (store : List Host) (w : StoreWrite) : List Host :=
  store.map (applyWriteHost w)

/-- Modelled from the spec: the Provider Status Client capability (spec 4.2
and 6), collapsed to its reconciliation-relevant content: a per-instance
alive classification and a per-(provider, region) batch failure, the latter
carrying free-form error text. -/
structure CloudProvider where
  alive : String → Bool
  batchError : String → String → Option String

/-- Modelled from the spec: `fetchStatuses` (spec 6): a successful result
carries an alive classification for every requested identifier; a failure
fails the whole batch call with the provider's error text. -/
def fetchStatuses (p : CloudProvider) (provider region : String) (ids : List String) :
    Except String (List (String × Bool)) :=
  match p.batchError provider region with
  | some e => Except.error e
  | none => Except.ok (ids.map (fun i => (i, p.alive i)))

/-- Modelled from the spec: the State Reconciler (spec 4.3): per host of a
successful batch result, a host observed in `Starting` that the provider
reports alive gets a conditional update to `Provisioning`; every other host
is left alone. -/
def reconcileWrites (cands : List Host) (result : List (String × Bool)) :
    List StoreWrite :=
  result.filterMap (fun r =>
    match cands.find? (fun h => h.id == r.1) with
    | some h =>
      if h.status == HostStatus.starting && r.2 then
        some (StoreWrite.condUpdate r.1 HostStatus.starting HostStatus.provisioning)
      else none
    | none => none)

/-- Modelled from the spec: the termination writes of the Unknown-Instance
Terminator (spec 4.4 steps 3-4): each recovered identifier matching a
candidate host is transitioned to `Terminated` independent of its current
status; identifiers matching no candidate host are ignored. -/
def terminatorWrites (cands : List Host) (ids : List String) : List StoreWrite :=
  cands.filterMap (fun h =>
    if ids.contains h.id then some (StoreWrite.setStatus h.id HostStatus.terminated)
    else none)

/-- Modelled from the spec: the Unknown-Instance Terminator entry point
exercised by `TestTerminateUnknownHosts`: parses the error text and applies
the termination writes against the candidate set; an unrecognizable text
changes nothing and is reported as an error (spec 4.4 step 2). -/
def terminateUnknownHosts (store : List Host) (errText : String) :
    List Host × Option String :=
  match parseUnknownInstanceIDs errText with
  | some ids =>
    ((terminatorWrites (candidateHosts store) ids).foldl applyWrite store, none)
  | none => (store, some ("unexpected format of unknown host error: " ++ errText))

/-- Modelled from the spec: processing of one batch (spec 4.5): query the
Provider Status Client; on success produce the Reconciler's writes; on an
unknown-instance-shaped failure produce the Terminator's writes; on any
other failure produce no writes and record the batch as failed. -/
def processBatch (p : CloudProvider) (cands : List Host)
    (b : (String × String) × List String) :
    List StoreWrite × Option ((String × String) × String) :=
  match fetchStatuses p b.1.1 b.1.2 b.2 with
  | Except.ok result => (reconcileWrites cands result, none)
  | Except.error e =>
    match parseUnknownInstanceIDs e with
    | some ids => (terminatorWrites cands ids, none)
    | none => ([], some (b.1, e))

/-- All store writes of one pass, in batch order. -/
def passWrites (p : CloudProvider) (cands : List Host) : List StoreWrite :=
  ((planBatches cands).map (fun b => (processBatch p cands b).1)).flatten

/-- All recorded batch failures of one pass. -/
def passFailures (p : CloudProvider) (cands : List Host) :
    List ((String × String) × String) :=
  (planBatches cands).filterMap (fun b => (processBatch p cands b).2)

/-- Modelled from the spec: one full pass of the Reconciliation Engine
(spec 4.5): load the non-terminal candidates, plan batches, process every
batch, apply the resulting store writes, and report the recorded failures
as accumulated diagnostics rather than aborting (spec section 7). -/
def runPass (p : CloudProvider) (store : List Host) :
    List Host × List ((String × String) × String) :=
  ((passWrites p (candidateHosts store)).foldl applyWrite store,
    passFailures p (candidateHosts store))

/-- The status of the host with identifier `i`, when present. -/
def statusOf (store : List Host) (i : String) : Option HostStatus :=
  (store.find? (fun h => h.id == i)).map Host.status

/-- Whether some planned batch key fails with an error text from which the
identifier `i` is recovered as an unknown instance. -/
def namedInFailingBatch (p : CloudProvider) (ks : List (String × String))
    (i : String) : Bool :=
  ks.any (fun k =>
    match p.batchError k.1 k.2 with
    | some e =>
      match parseUnknownInstanceIDs e with
      | some ids => ids.contains i
      | none => false
    | none => false)

/-- The planned batch keys of a pass over `store`. -/
def passKeys (store : List Host) : List (String × String) :=
  (planBatches (candidateHosts store)).map Prod.fst

/-- The per-host outcome of one pass: terminal hosts are untouched; a
candidate recovered from a failing batch error is terminated; a starting
candidate reported alive by a successful own-batch query is provisioned;
every other host keeps its status. -/
def passStatus (p : CloudProvider) (ks : List (String × String)) (h : Host) :
    HostStatus :=
  if h.status.isTerminal then h.status
  else if namedInFailingBatch p ks h.id then HostStatus.terminated
  else if h.status == HostStatus.starting && p.alive h.id
      && (p.batchError (hostKey h).1 (hostKey h).2).isNone then
    HostStatus.provisioning
  else h.status

/-- The service-side revision record.  Modelled from the spec: the service
model `model.Revision` behind the generated mapping is not among the
provided sources (spec section 1 treats the REST data-mapping's service
models as external); only the two fields the generated mapping touches are
modelled, plus one untouched field witnessing that other fields exist. -/
structure ServiceRevision where
  Author : String
  AuthorGithubUID : Int
  AuthorEmail : String
  deriving DecidableEq, Repr

/-- The API-side revision record, translated from
`rest/model/testdata/expected/basic.go`. -/
structure APIRevision where
  Author : String
  AuthorGithubUID : Int
  deriving DecidableEq, Repr

/-- Modelled from the spec: the generated same-type string converter of the
REST model code generator (spec section 1: service-model to API-model
conversion is code generation); a same-type conversion is the identity. -/
def stringToString (s : String) : String := s

/-- Modelled from the spec: the generated same-type integer converter of the
REST model code generator; a same-type conversion is the identity. -/
def intToInt (n : Int) : Int := n

/-- Translated from `APIRevision.BuildFromService` in
`rest/model/testdata/expected/basic.go`: copies both fields from the
service model and always returns a nil error (modelled as `none`). -/
def APIRevision.BuildFromService (t : ServiceRevision) : APIRevision × Option String :=
  ({ Author := stringToString t.Author,
     AuthorGithubUID := intToInt t.AuthorGithubUID }, none)

/-- Translated from `APIRevision.ToService` in
`rest/model/testdata/expected/basic.go`: starts from a zero service record,
copies both fields back, and always returns a nil error. -/
def APIRevision.ToService (m : APIRevision) : ServiceRevision × Option String :=
  ({ Author := stringToString m.Author,
     AuthorGithubUID := intToInt m.AuthorGithubUID,
     AuthorEmail := "" }, none)

/-- A version record, translated from the `Version` struct of
`model/version.go`, restricted to the fields `VersionGetHistory` reads. -/
structure VersionRec where
  vid : String
  revisionOrderNumber : Int
  identifier : String
  deriving DecidableEq, Repr

/-- Modelled from the spec: the version collection query capabilities that
`model/version.go` consumes (`VersionFindOne` over `VersionById`, and the
three `VersionFind` queries of `VersionGetHistory`, abstracted over their
concrete filters: siblings at the same order number, subsequent versions,
and previous versions, each taking the order number, the identifier and the
query limit).  The database layer itself is not among the provided
sources. -/
structure VersionStore where
  findOne : String → Except String (Option VersionRec)
  findSiblings : Int → String → Int → Except String (List VersionRec)
  findSubsequent : Int → String → Int → Except String (List VersionRec)
  findPrevious : Int → String → Int → Except String (List VersionRec)

/-- The index of the last element of `l` whose id equals `target`, starting
from index `i`, with `acc` the best index found so far; translated from the
index-scanning loop of `VersionGetHistory` (which overwrites the index on
every match). -/
def lastIndexOfAux (target : String) : List VersionRec → Int → Int → Int
  | [], _, acc => acc
  | v :: vs, i, acc =>
    lastIndexOfAux target vs (i + 1) (if v.vid == target then i else acc)

/-- The index of the last element of `l` whose id equals `target`, or `-1`. -/
def lastIndexOf (l : List VersionRec) (target : String) : Int :=
  lastIndexOfAux target l 0 (-1)

/-- Translated from `VersionGetHistory` in `model/version.go`: look up the
version; a lookup error propagates; a missing version yields the error
naming the version id; otherwise fetch up to `2*n+1` siblings, locate the
version among them, prepend the reversed subsequent versions when fewer
than `n` later siblings exist, and append up to `n` previous versions when
fewer than `n` earlier siblings exist. -/
def versionGetHistory (db : VersionStore) (versionId : String) (n : Int) :
    Except String (List VersionRec) :=
  match db.findOne versionId with
  | Except.error e => Except.error e
  | Except.ok none =>
    Except.error ("Version " ++ quoteStr ++ versionId ++ quoteStr ++ " not found")
  | Except.ok (some v) =>
    match db.findSiblings v.revisionOrderNumber v.identifier (2 * n + 1) with
    | Except.error e => Except.error e
    | Except.ok siblingVersions =>
      let versionIndex := lastIndexOf siblingVersions v.vid
      let numSiblings : Int := Int.ofNat siblingVersions.length - 1
      match (if versionIndex < n then
          db.findSubsequent v.revisionOrderNumber v.identifier (n - versionIndex)
        else Except.ok []) with
      | Except.error e => Except.error e
      | Except.ok subsequentVersions =>
        let versions := subsequentVersions.reverse ++ siblingVersions
        match (if numSiblings - versionIndex < n then
            db.findPrevious v.revisionOrderNumber v.identifier n
          else Except.ok []) with
        | Except.error e => Except.error e
        | Except.ok previousVersions => Except.ok (versions ++ previousVersions)

/-- The mock provider of the observed scenario: every instance is reported
alive and no batch query fails. -/
def mockAllAlive : CloudProvider :=
  { alive := fun _ => true, batchError := fun _ _ => none }

/-- The four hosts of the observed scenario (spec section 8 and
`TestCloudStatusJob`). -/
def scenarioHosts : List Host :=
  [ { id := "host-1", provider := "mock", region := some "region-1",
      status := HostStatus.starting },
    { id := "host-2", provider := "mock", region := some "region-2",
      status := HostStatus.starting },
    { id := "host-3", provider := "mock", region := none,
      status := HostStatus.terminated },
    { id := "host-4", provider := "mock", region := none,
      status := HostStatus.provisioning } ]

/-- The expected post-pass hosts of the observed scenario. -/
def scenarioExpected : List Host :=
  [ { id := "host-1", provider := "mock", region := some "region-1",
      status := HostStatus.provisioning },
    { id := "host-2", provider := "mock", region := some "region-2",
      status := HostStatus.provisioning },
    { id := "host-3", provider := "mock", region := none,
      status := HostStatus.terminated },
    { id := "host-4", provider := "mock", region := none,
      status := HostStatus.provisioning } ]

/-- The error text of `TestTerminateUnknownHosts`, naming `h1` and `h2` as
unknown instance identifiers. -/
def awsUnknownHostsError : String :=
  "error getting host statuses for providers: error describing instances: "
    ++ "after 10 retries, operation failed: InvalidInstanceID.NotFound: "
    ++ "The instance IDs " ++ quoteStr ++ "h1, h2" ++ quoteStr ++ " do not exist"

/-- The two hosts of `TestTerminateUnknownHosts`; the test inserts them with
no explicit status, modelled here as the initial lifecycle state. -/
def unknownScenarioHosts : List Host :=
  [ { id := "h1", provider := "", region := none, status := HostStatus.starting },
    { id := "h2", provider := "", region := none, status := HostStatus.starting } ]

/-- Folding a list of writes over one host. -/
def applyHostWrites (h : Host) (ws : List StoreWrite) : Host :=
  ws.foldl (fun a w => applyWriteHost w a) h

/-- A provisioning host whose own (provider, region) batch fails with an
unknown-instance error naming it. -/
def c1xHost : Host :=
  { id := "p1", provider := "m", region := none,
    status := HostStatus.provisioning }

/-- Provider error text naming `p1` as an unknown instance. -/
def c1xError : String :=
  "The instance IDs " ++ quoteStr ++ "p1" ++ quoteStr ++ " do not exist"

/-- A provider failing the (m, empty-region) batch with `c1xError`. -/
def c1xProvider : CloudProvider :=
  { alive := fun _ => true,
    batchError := fun prov reg =>
      if prov = "m" ∧ reg = "" then some c1xError else none }

/-- The provider of the `TestTerminateUnknownHosts` run: every batch query
fails with the recorded AWS unknown-instance error text. -/
def c7Provider : CloudProvider :=
  { alive := fun _ => true,
    batchError := fun _ _ => some awsUnknownHostsError }

/-- The two hosts of the partial-failure scenario: `a1` in batch (m, r1),
`b1` in batch (m, r2). -/
def c5Hosts : List Host :=
  [ { id := "a1", provider := "m", region := some "r1",
      status := HostStatus.starting },
    { id := "b1", provider := "m", region := some "r2",
      status := HostStatus.starting } ]

/-- Error text of batch (m, r1) naming `b1`, a host of batch (m, r2). -/
def c5Error : String :=
  "The instance IDs " ++ quoteStr ++ "b1" ++ quoteStr ++ " do not exist"

/-- A provider failing batch (m, r1) with text naming `b1` and answering
batch (m, r2) successfully. -/
def c5ProviderFail : CloudProvider :=
  { alive := fun _ => true,
    batchError := fun prov reg =>
      if prov = "m" ∧ reg = "r1" then some c5Error else none }

/-- The same provider with no failure at all. -/
def c5ProviderOk : CloudProvider :=
  { alive := fun _ => true, batchError := fun _ _ => none }

/-- A version store whose lookup succeeds but finds no record. -/
def emptyVersionStore : VersionStore :=
  { findOne := fun _ => Except.ok none,
    findSiblings := fun _ _ _ => Except.ok [],
    findSubsequent := fun _ _ _ => Except.ok [],
    findPrevious := fun _ _ _ => Except.ok [] }

theorem applyWriteHost_id (w : StoreWrite) (h : Host) :
    (applyWriteHost w h).id = h.id := by
  cases w <;> simp only [applyWriteHost] <;> split <;> rfl

theorem applyWriteHost_of_target_ne (w : StoreWrite) (h : Host)
    (hne : ¬ w.target = h.id) : applyWriteHost w h = h := by
  cases w with
  | condUpdate i e n =>
    simp only [StoreWrite.target] at hne
    simp only [applyWriteHost]
    rw [if_neg]
    simp only [Bool.and_eq_true, beq_iff_eq]
    intro hc
    exact hne hc.1.symm
  | setStatus i n =>
    simp only [StoreWrite.target] at hne
    simp only [applyWriteHost]
    rw [if_neg]
    simp only [beq_iff_eq]
    intro hc
    exact hne hc.symm

theorem foldl_applyWrite_eq_map (ws : List StoreWrite) (store : List Host) :
    ws.foldl applyWrite store = store.map (fun h => applyHostWrites h ws) := by
  induction ws generalizing store with
  | nil => simp [applyHostWrites]
  | cons w ws ih =>
    simp only [List.foldl_cons, applyWrite, ih, List.map_map, applyHostWrites,
      List.foldl_cons]
    rfl

theorem applyHostWrites_filter_target (ws : List StoreWrite) (i : String) (h : Host)
    (hid : h.id = i) :
    applyHostWrites h ws
      = applyHostWrites h (ws.filter (fun w => w.target == i)) := by
  induction ws generalizing h with
  | nil => rfl
  | cons w ws ih =>
    by_cases ht : w.target = i
    · have hkeep : (fun w => w.target == i) w = true := by
        simp [ht]
      simp only [applyHostWrites, List.foldl_cons, List.filter_cons, hkeep, if_pos]
      have hid2 : (applyWriteHost w h).id = i := by rw [applyWriteHost_id, hid]
      exact ih (applyWriteHost w h) hid2
    · have hdrop : ¬ ((fun w => w.target == i) w = true) := by
        simp [ht]
      have hskip : applyWriteHost w h = h := by
        apply applyWriteHost_of_target_ne
        rw [hid]; exact ht
      simp only [applyHostWrites, List.foldl_cons, List.filter_cons]
      rw [if_neg hdrop, hskip]
      exact ih h hid

theorem batchIds_insertHost_same (k : String × String) (i : String)
    (bs : List ((String × String) × List String)) :
    batchIds (insertHost k i bs) k = batchIds bs k ++ [i] := by
  induction bs with
  | nil => simp [insertHost, batchIds, List.find?]
  | cons b bs ih =>
    by_cases hb : b.1 = k
    · have hbeq : (b.1 == k) = true := by simp [hb]
      simp only [insertHost, hbeq, if_pos, batchIds, List.find?, hbeq]
    · have hbeq : (b.1 == k) = false := by simp [hb]
      simp only [insertHost, hbeq, Bool.false_eq_true, if_false, batchIds,
        List.find?, hbeq] at ih ⊢
      exact ih

theorem batchIds_insertHost_ne (k0 k : String × String) (i : String)
    (bs : List ((String × String) × List String)) (hne : ¬ k0 = k) :
    batchIds (insertHost k0 i bs) k = batchIds bs k := by
  induction bs with
  | nil =>
    have : (k0 == k) = false := by simp [hne]
    simp [insertHost, batchIds, List.find?, this]
  | cons b bs ih =>
    by_cases hb : b.1 = k0
    · have hbeq : (b.1 == k0) = true := by simp [hb]
      have hbk : (b.1 == k) = false := by simp [hb, hne]
      simp [insertHost, hbeq, batchIds, List.find?, hbk]
    · have hbeq : (b.1 == k0) = false := by simp [hb]
      by_cases hbk : b.1 = k
      · have hbkeq : (b.1 == k) = true := by simp [hbk]
        simp [insertHost, hbeq, batchIds, List.find?, hbkeq]
      · have hbkeq : (b.1 == k) = false := by simp [hbk]
        simp only [insertHost, hbeq, Bool.false_eq_true, if_false, batchIds,
          List.find?, hbkeq] at ih ⊢
        exact ih

theorem batchIds_foldl (hs : List Host) (acc : List ((String × String) × List String))
    (k : String × String) :
    batchIds (hs.foldl (fun a h => insertHost (hostKey h) h.id a) acc) k
      = batchIds acc k
        ++ (hs.filter (fun h => hostKey h == k)).map Host.id := by
  induction hs generalizing acc with
  | nil => simp
  | cons h hs ih =>
    simp only [List.foldl_cons, List.filter_cons]
    by_cases hk : hostKey h = k
    · have hkeq : (hostKey h == k) = true := by simp [hk]
      rw [ih]
      simp only [hkeq, if_pos, List.map_cons]
      rw [hk, batchIds_insertHost_same, List.append_assoc]
      rfl
    · have hkeq : (hostKey h == k) = false := by simp [hk]
      rw [ih]
      simp only [hkeq, Bool.false_eq_true, if_false]
      rw [batchIds_insertHost_ne _ _ _ _ hk]

theorem batchIds_planBatches (hs : List Host) (k : String × String) :
    batchIds (planBatches hs) k
      = (hs.filter (fun h => hostKey h == k)).map Host.id := by
  have := batchIds_foldl hs [] k
  simpa [planBatches, batchIds, List.find?] using this

theorem mem_keys_insertHost (k0 k : String × String) (i : String)
    (bs : List ((String × String) × List String)) :
    k ∈ (insertHost k0 i bs).map Prod.fst ↔ k ∈ bs.map Prod.fst ∨ k = k0 := by
  induction bs with
  | nil => simp [insertHost]
  | cons b bs ih =>
    by_cases hb : b.1 = k0
    · have hbeq : (b.1 == k0) = true := by simp [hb]
      simp only [insertHost, hbeq, if_pos, List.map_cons, List.mem_cons]
      constructor
      · intro hc
        cases hc with
        | inl h1 => exact Or.inl (Or.inl h1)
        | inr h2 => exact Or.inl (Or.inr h2)
      · intro hc
        cases hc with
        | inl h1 => exact h1
        | inr h2 => exact Or.inl (by rw [h2, ← hb])
    · have hbeq : (b.1 == k0) = false := by simp [hb]
      simp only [insertHost, hbeq, Bool.false_eq_true, if_false, List.map_cons,
        List.mem_cons, ih, or_assoc]

theorem keys_nodup_insertHost (k0 : String × String) (i : String)
    (bs : List ((String × String) × List String))
    (hnd : (bs.map Prod.fst).Nodup) :
    ((insertHost k0 i bs).map Prod.fst).Nodup := by
  induction bs with
  | nil => simp [insertHost]
  | cons b bs ih =>
    simp only [List.map_cons, List.nodup_cons] at hnd
    by_cases hb : b.1 = k0
    · have hbeq : (b.1 == k0) = true := by simp [hb]
      simp only [insertHost, hbeq, if_pos, List.map_cons, List.nodup_cons]
      exact hnd
    · have hbeq : (b.1 == k0) = false := by simp [hb]
      simp only [insertHost, hbeq, Bool.false_eq_true, if_false, List.map_cons,
        List.nodup_cons]
      constructor
      · rw [mem_keys_insertHost]
        intro hc
        cases hc with
        | inl h1 => exact hnd.1 h1
        | inr h2 => exact hb h2
      · exact ih hnd.2

theorem keys_nodup_foldl (hs : List Host)
    (acc : List ((String × String) × List String))
    (hnd : (acc.map Prod.fst).Nodup) :
    (((hs.foldl (fun a h => insertHost (hostKey h) h.id a) acc)).map Prod.fst).Nodup := by
  induction hs generalizing acc with
  | nil => exact hnd
  | cons h hs ih =>
    simp only [List.foldl_cons]
    exact ih _ (keys_nodup_insertHost _ _ _ hnd)

theorem planBatches_keys_nodup (hs : List Host) :
    ((planBatches hs).map Prod.fst).Nodup :=
  keys_nodup_foldl hs [] (by simp)

theorem mem_keys_foldl (hs : List Host)
    (acc : List ((String × String) × List String)) (k : String × String) :
    k ∈ ((hs.foldl (fun a h => insertHost (hostKey h) h.id a) acc)).map Prod.fst
      ↔ k ∈ acc.map Prod.fst ∨ ∃ h ∈ hs, hostKey h = k := by
  induction hs generalizing acc with
  | nil => simp
  | cons h hs ih =>
    simp only [List.foldl_cons, ih, mem_keys_insertHost, List.mem_cons]
    constructor
    · intro hc
      cases hc with
      | inl h1 =>
        cases h1 with
        | inl h2 => exact Or.inl h2
        | inr h3 => exact Or.inr ⟨h, Or.inl rfl, h3.symm⟩
      | inr h2 =>
        obtain ⟨x, hx, hk⟩ := h2
        exact Or.inr ⟨x, Or.inr hx, hk⟩
    · intro hc
      cases hc with
      | inl h1 => exact Or.inl (Or.inl h1)
      | inr h2 =>
        obtain ⟨x, hx, hk⟩ := h2
        cases hx with
        | inl h3 => exact Or.inl (Or.inr (by rw [← hk, h3]))
        | inr h4 => exact Or.inr ⟨x, h4, hk⟩

theorem mem_planBatches_keys (hs : List Host) (k : String × String) :
    k ∈ (planBatches hs).map Prod.fst ↔ ∃ h ∈ hs, hostKey h = k := by
  have := mem_keys_foldl hs [] k
  simpa [planBatches] using this

theorem mem_entry_batchIds (bs : List ((String × String) × List String))
    (hnd : (bs.map Prod.fst).Nodup) (b : (String × String) × List String)
    (hb : b ∈ bs) : b.2 = batchIds bs b.1 := by
  induction bs with
  | nil => cases hb
  | cons b0 bs ih =>
    simp only [List.map_cons, List.nodup_cons] at hnd
    cases hb with
    | head =>
      simp [batchIds, List.find?]
    | tail _ htail =>
      have hne : ¬ b0.1 = b.1 := by
        intro hc
        exact hnd.1 (hc ▸ List.mem_map_of_mem Prod.fst htail)
      have hbeq : (b0.1 == b.1) = false := by simp [hne]
      simp only [batchIds, List.find?, hbeq]
      exact ih hnd.2 htail

theorem mem_planBatches_eq (hs : List Host) (b : (String × String) × List String)
    (hb : b ∈ planBatches hs) :
    b.2 = (hs.filter (fun h => hostKey h == b.1)).map Host.id := by
  rw [mem_entry_batchIds (planBatches hs) (planBatches_keys_nodup hs) b hb]
  exact batchIds_planBatches hs b.1

theorem host_eq_of_id_eq (store : List Host) (hnd : (store.map Host.id).Nodup)
    (a b : Host) (ha : a ∈ store) (hb : b ∈ store) (hid : a.id = b.id) : a = b :=
  List.inj_on_of_nodup_map hnd ha hb hid

theorem candidateHosts_ids_nodup (store : List Host)
    (hnd : (store.map Host.id).Nodup) :
    ((candidateHosts store).map Host.id).Nodup :=
  ((List.filter_sublist store).map Host.id).nodup hnd

theorem candidateHosts_subset (store : List Host) (h : Host)
    (hm : h ∈ candidateHosts store) : h ∈ store :=
  (List.mem_filter.mp hm).1

theorem mem_candidateHosts (store : List Host) (h : Host) :
    h ∈ candidateHosts store ↔ h ∈ store ∧ h.status.isTerminal = false := by
  simp [candidateHosts, List.mem_filter]

theorem find?_id_of_nodup (l : List Host) (hnd : (l.map Host.id).Nodup)
    (h : Host) (hm : h ∈ l) :
    l.find? (fun x => x.id == h.id) = some h := by
  induction l with
  | nil => cases hm
  | cons x l ih =>
    simp only [List.map_cons, List.nodup_cons] at hnd
    cases hm with
    | head => simp [List.find?]
    | tail _ htail =>
      have hne : ¬ x.id = h.id := by
        intro hc
        exact hnd.1 (hc ▸ List.mem_map_of_mem Host.id htail)
      have hbeq : (x.id == h.id) = false := by simp [hne]
      simp only [List.find?, hbeq]
      exact ih hnd.2 htail

theorem filter_id_of_nodup (l : List Host) (hnd : (l.map Host.id).Nodup)
    (h : Host) (hm : h ∈ l) :
    l.filter (fun x => x.id == h.id) = [h] := by
  induction l with
  | nil => cases hm
  | cons x l ih =>
    simp only [List.map_cons, List.nodup_cons] at hnd
    cases hm with
    | head =>
      simp only [List.filter_cons, beq_self_eq_true, if_pos]
      have : l.filter (fun x => x.id == h.id) = [] := by
        apply List.filter_eq_nil_iff.mpr
        intro a ha
        simp only [beq_iff_eq]
        intro hc
        exact hnd.1 (hc ▸ List.mem_map_of_mem Host.id ha)
      rw [this]
    | tail _ htail =>
      have hne : ¬ x.id = h.id := by
        intro hc
        exact hnd.1 (hc ▸ List.mem_map_of_mem Host.id htail)
      have hbeq : (x.id == h.id) = false := by simp [hne]
      simp only [List.filter_cons, hbeq, Bool.false_eq_true, if_false]
      exact ih hnd.2 htail

theorem filter_id_of_not_mem (l : List Host) (i : String)
    (hni : ∀ x ∈ l, ¬ x.id = i) :
    l.filter (fun x => x.id == i) = [] := by
  apply List.filter_eq_nil_iff.mpr
  intro a ha
  simp only [beq_iff_eq]
  exact hni a ha

theorem filter_beq_of_nodup (l : List String) (hnd : l.Nodup) (x : String) :
    l.filter (fun y => y == x) = if x ∈ l then [x] else [] := by
  induction l with
  | nil => simp
  | cons y l ih =>
    simp only [List.nodup_cons] at hnd
    by_cases hy : y = x
    · subst hy
      simp only [List.filter_cons, beq_self_eq_true, if_pos, List.mem_cons,
        true_or, if_true]
      have : l.filter (fun z => z == y) = [] := by
        apply List.filter_eq_nil_iff.mpr
        intro a ha
        simp only [beq_iff_eq]
        intro hc
        exact hnd.1 (hc ▸ ha)
      rw [this]
    · have hbeq : (y == x) = false := by simp [hy]
      simp only [List.filter_cons, hbeq, Bool.false_eq_true, if_false, ih hnd.2,
        List.mem_cons]
      by_cases hx : x ∈ l
      · simp [hx]
      · have : ¬ (x = y ∨ x ∈ l) := by
          intro hc
          cases hc with
          | inl h1 => exact hy h1.symm
          | inr h2 => exact hx h2
        rw [if_neg hx, if_neg this]

theorem reconcileWrites_filter_target (cands : List Host)
    (rs : List (String × Bool)) (i : String) :
    (reconcileWrites cands rs).filter (fun w => w.target == i)
      = reconcileWrites cands (rs.filter (fun r => r.1 == i)) := by
  induction rs with
  | nil => rfl
  | cons r rs ih =>
    simp only [reconcileWrites, List.filterMap_cons, List.filter_cons]
    by_cases hr : r.1 = i
    · have hbeq : (r.1 == i) = true := by simp [hr]
      rw [hbeq]
      simp only [if_pos, List.filterMap_cons]
      cases hfind : cands.find? (fun h => h.id == r.1) with
      | none =>
        simpa only [reconcileWrites, hfind] using ih
      | some h =>
        by_cases hcond : (h.status == HostStatus.starting && r.2) = true
        · simp only [hfind, hcond, if_pos, List.filter_cons, StoreWrite.target,
            hbeq, if_pos]
          simpa only [reconcileWrites] using congrArg
            (List.cons (StoreWrite.condUpdate r.1 HostStatus.starting
              HostStatus.provisioning)) ih
        · simp only [hfind, hcond, Bool.false_eq_true, if_false] at ih ⊢
          simpa only [reconcileWrites] using ih
    · have hbeq : (r.1 == i) = false := by simp [hr]
      rw [hbeq]
      simp only [Bool.false_eq_true, if_false]
      cases hfind : cands.find? (fun h => h.id == r.1) with
      | none =>
        simpa only [reconcileWrites, hfind] using ih
      | some h =>
        by_cases hcond : (h.status == HostStatus.starting && r.2) = true
        · simp only [hfind, hcond, if_pos, List.filter_cons, StoreWrite.target,
            hbeq, Bool.false_eq_true, if_false]
          simpa only [reconcileWrites] using ih
        · simp only [hfind, hcond, Bool.false_eq_true, if_false]
          simpa only [reconcileWrites] using ih

theorem terminatorWrites_filter_target (cands : List Host) (ids : List String)
    (i : String) :
    (terminatorWrites cands ids).filter (fun w => w.target == i)
      = terminatorWrites (cands.filter (fun h => h.id == i)) ids := by
  induction cands with
  | nil => rfl
  | cons h cands ih =>
    simp only [terminatorWrites, List.filterMap_cons, List.filter_cons]
    by_cases hc : ids.contains h.id = true
    · simp only [hc, if_pos, List.filter_cons, StoreWrite.target]
      by_cases hi : h.id = i
      · have hbeq : (h.id == i) = true := by simp [hi]
        simp only [hbeq, if_pos, List.filterMap_cons, hc, if_pos]
        simpa only [terminatorWrites] using congrArg
          (List.cons (StoreWrite.setStatus h.id HostStatus.terminated)) ih
      · have hbeq : (h.id == i) = false := by simp [hi]
        simp only [hbeq, Bool.false_eq_true, if_false]
        simpa only [terminatorWrites] using ih
    · have hc2 : ids.contains h.id = false := by
        cases hq : ids.contains h.id with
        | false => rfl
        | true => exact absurd hq hc
      simp only [hc2, Bool.false_eq_true, if_false]
      by_cases hi : h.id = i
      · have hbeq : (h.id == i) = true := by simp [hi]
        simp only [hbeq, if_pos, List.filterMap_cons, hc2, Bool.false_eq_true,
          if_false]
        simpa only [terminatorWrites] using ih
      · have hbeq : (h.id == i) = false := by simp [hi]
        simp only [hbeq, Bool.false_eq_true, if_false]
        simpa only [terminatorWrites] using ih

theorem filter_fst_of_map (al : String → Bool) (ids : List String) (i : String) :
    ((ids.map (fun x => (x, al x))).filter (fun r => r.1 == i))
      = (ids.filter (fun x => x == i)).map (fun x => (x, al x)) := by
  induction ids with
  | nil => rfl
  | cons x ids ih =>
    simp only [List.map_cons, List.filter_cons]
    by_cases hx : x = i
    · have hbeq : (x == i) = true := by simp [hx]
      simp only [hbeq, if_pos, List.map_cons]
      rw [ih]
    · have hbeq : (x == i) = false := by simp [hx]
      simp only [hbeq, Bool.false_eq_true, if_false]
      exact ih

theorem batch_ids_nodup (cands : List Host) (hnd : (cands.map Host.id).Nodup)
    (b : (String × String) × List String) (hb : b ∈ planBatches cands) :
    b.2.Nodup := by
  rw [mem_planBatches_eq cands b hb]
  exact (((List.filter_sublist cands).map Host.id)).nodup hnd

theorem mem_batch_iff (cands : List Host) (hnd : (cands.map Host.id).Nodup)
    (h : Host) (hc : h ∈ cands) (b : (String × String) × List String)
    (hb : b ∈ planBatches cands) :
    h.id ∈ b.2 ↔ hostKey h = b.1 := by
  rw [mem_planBatches_eq cands b hb]
  constructor
  · intro hmem
    obtain ⟨x, hx, hxid⟩ := List.mem_map.mp hmem
    have hx2 := List.mem_filter.mp hx
    have : x = h := host_eq_of_id_eq cands hnd x h hx2.1 hc hxid
    subst this
    exact beq_iff_eq.mp hx2.2
  · intro hk
    exact List.mem_map_of_mem Host.id
      (List.mem_filter.mpr ⟨hc, by simp [hk]⟩)

theorem processBatch_filter_ok (p : CloudProvider) (cands : List Host)
    (b : (String × String) × List String) (h : Host)
    (hnd : (cands.map Host.id).Nodup) (hb : b ∈ planBatches cands)
    (hc : h ∈ cands) (he : p.batchError b.1.1 b.1.2 = none) :
    ((processBatch p cands b).1).filter (fun w => w.target == h.id)
      = if hostKey h = b.1 ∧ h.status = HostStatus.starting
            ∧ p.alive h.id = true then
          [StoreWrite.condUpdate h.id HostStatus.starting HostStatus.provisioning]
        else [] := by
  simp only [processBatch, fetchStatuses, he]
  rw [reconcileWrites_filter_target, filter_fst_of_map,
    filter_beq_of_nodup b.2 (batch_ids_nodup cands hnd b hb) h.id]
  by_cases hk : hostKey h = b.1
  · have hmem : h.id ∈ b.2 := (mem_batch_iff cands hnd h hc b hb).mpr hk
    rw [if_pos hmem]
    simp only [List.map_cons, List.map_nil, reconcileWrites, List.filterMap_cons,
      List.filterMap_nil, find?_id_of_nodup cands hnd h hc]
    by_cases hs : h.status = HostStatus.starting
    · by_cases ha : p.alive h.id = true
      · have : (h.status == HostStatus.starting && p.alive h.id) = true := by
          simp [hs, ha]
        rw [this]
        simp only [if_pos]
        rw [if_pos ⟨hk, hs, ha⟩]
      · have : (h.status == HostStatus.starting && p.alive h.id) = false := by
          simp [ha]
        rw [this]
        simp only [Bool.false_eq_true, if_false]
        rw [if_neg]
        intro hcon
        exact ha hcon.2.2
    · have : (h.status == HostStatus.starting && p.alive h.id) = false := by
        simp [hs]
      rw [this]
      simp only [Bool.false_eq_true, if_false]
      rw [if_neg]
      intro hcon
      exact hs hcon.2.1
  · have hmem : ¬ h.id ∈ b.2 := by
      intro hcon
      exact hk ((mem_batch_iff cands hnd h hc b hb).mp hcon)
    rw [if_neg hmem]
    simp only [List.map_nil, reconcileWrites, List.filterMap_nil]
    rw [if_neg]
    intro hcon
    exact hk hcon.1

theorem processBatch_filter_parse (p : CloudProvider) (cands : List Host)
    (b : (String × String) × List String) (h : Host) (e : String)
    (ids : List String) (hnd : (cands.map Host.id).Nodup) (hc : h ∈ cands)
    (he : p.batchError b.1.1 b.1.2 = some e)
    (hp : parseUnknownInstanceIDs e = some ids) :
    ((processBatch p cands b).1).filter (fun w => w.target == h.id)
      = if ids.contains h.id = true then
          [StoreWrite.setStatus h.id HostStatus.terminated]
        else [] := by
  simp only [processBatch, fetchStatuses, he, hp]
  rw [terminatorWrites_filter_target, filter_id_of_nodup cands hnd h hc]
  simp only [terminatorWrites, List.filterMap_cons, List.filterMap_nil]
  by_cases hcon : ids.contains h.id = true
  · rw [hcon]
    simp
  · have : ids.contains h.id = false := by
      cases hq : ids.contains h.id with
      | false => rfl
      | true => exact absurd hq hcon
    rw [this]
    simp

theorem processBatch_filter_noparse (p : CloudProvider) (cands : List Host)
    (b : (String × String) × List String) (i : String) (e : String)
    (he : p.batchError b.1.1 b.1.2 = some e)
    (hp : parseUnknownInstanceIDs e = none) :
    ((processBatch p cands b).1).filter (fun w => w.target == i) = [] := by
  simp [processBatch, fetchStatuses, he, hp]

theorem processBatch_target_mem (p : CloudProvider) (cands : List Host)
    (b : (String × String) × List String) (w : StoreWrite)
    (hw : w ∈ (processBatch p cands b).1) : ∃ x ∈ cands, w.target = x.id := by
  cases he : p.batchError b.1.1 b.1.2 with
  | none =>
    simp only [processBatch, fetchStatuses, he, reconcileWrites] at hw
    obtain ⟨r, _, hr⟩ := List.mem_filterMap.mp hw
    cases hfind2 : cands.find? (fun x => x.id == r.1) with
    | none => rw [hfind2] at hr; cases hr
    | some x =>
      rw [hfind2] at hr
      dsimp only at hr
      have hx : x ∈ cands := List.mem_of_find?_eq_some hfind2
      have hxid := List.find?_some hfind2
      simp only [beq_iff_eq] at hxid
      by_cases hcnd : (x.status == HostStatus.starting && r.2) = true
      · rw [if_pos hcnd] at hr
        cases hr
        exact ⟨x, hx, hxid.symm⟩
      · rw [if_neg hcnd] at hr
        cases hr
  | some e =>
    cases hp : parseUnknownInstanceIDs e with
    | none =>
      simp only [processBatch, fetchStatuses, he, hp] at hw
      cases hw
    | some ids =>
      simp only [processBatch, fetchStatuses, he, hp, terminatorWrites] at hw
      obtain ⟨x, hx, hr⟩ := List.mem_filterMap.mp hw
      by_cases hcnd : ids.contains x.id = true
      · rw [if_pos hcnd] at hr
        cases hr
        exact ⟨x, hx, rfl⟩
      · rw [if_neg hcnd] at hr
        cases hr

theorem processBatch_filter_no_cand (p : CloudProvider) (cands : List Host)
    (b : (String × String) × List String) (i : String)
    (hni : ∀ x ∈ cands, ¬ x.id = i) :
    ((processBatch p cands b).1).filter (fun w => w.target == i) = [] := by
  apply List.filter_eq_nil_iff.mpr
  intro w hw
  obtain ⟨x, hx, hxid⟩ := processBatch_target_mem p cands b w hw
  simp only [beq_iff_eq, hxid]
  exact hni x hx

theorem passWrites_filter (p : CloudProvider) (cands : List Host) (i : String) :
    (passWrites p cands).filter (fun w => w.target == i)
      = ((planBatches cands).map
          (fun b => ((processBatch p cands b).1).filter
            (fun w => w.target == i))).flatten := by
  simp only [passWrites, List.filter_flatten, List.map_map]
  rfl

theorem flatten_single_key (f : ((String × String) × List String) → List StoreWrite)
    (k : String × String) (L : List ((String × String) × List String))
    (hnd : (L.map Prod.fst).Nodup)
    (hother : ∀ b ∈ L, ¬ b.1 = k → f b = []) :
    (L.map f).flatten
      = (match L.find? (fun b => b.1 == k) with
          | some b => f b
          | none => []) := by
  induction L with
  | nil => rfl
  | cons b L ih =>
    simp only [List.map_cons, List.nodup_cons] at hnd
    simp only [List.map_cons, List.flatten_cons, List.find?]
    by_cases hb : b.1 = k
    · have hbeq : (b.1 == k) = true := by simp [hb]
      rw [hbeq]
      have hrest : (L.map f).flatten = [] := by
        apply List.flatten_eq_nil_iff.mpr
        intro l hl
        obtain ⟨b2, hb2, rfl⟩ := List.mem_map.mp hl
        apply hother b2 (List.mem_cons_of_mem b hb2)
        intro hc
        apply hnd.1
        rw [hb, ← hc]
        exact List.mem_map_of_mem Prod.fst hb2
      rw [hrest, List.append_nil]
    · have hbeq : (b.1 == k) = false := by simp [hb]
      rw [hbeq]
      have hhead : f b = [] := hother b (List.mem_cons_self b L) hb
      rw [hhead, List.nil_append]
      exact ih hnd.2 (fun b2 hb2 => hother b2 (List.mem_cons_of_mem b hb2))

theorem applyHostWrites_stay_terminated (i : String) (l : List StoreWrite) :
    ∀ h : Host, h.id = i → h.status = HostStatus.terminated →
    (∀ w ∈ l, w = StoreWrite.condUpdate i HostStatus.starting HostStatus.provisioning
      ∨ w = StoreWrite.setStatus i HostStatus.terminated) →
    applyHostWrites h l = h := by
  induction l with
  | nil => intro h _ _ _; rfl
  | cons w l ih =>
    intro h hid hst hshape
    have hw := hshape w (List.mem_cons_self w l)
    have hstep : applyWriteHost w h = h := by
      cases hw with
      | inl hcond =>
        subst hcond
        simp only [applyWriteHost]
        rw [if_neg]
        simp only [Bool.and_eq_true, beq_iff_eq]
        intro hc
        rw [hst] at hc
        cases hc.2
      | inr hset =>
        subst hset
        simp only [applyWriteHost]
        rw [if_pos (by simp [hid])]
        rw [← hst]
    simp only [applyHostWrites, List.foldl_cons, hstep]
    exact ih h hid hst (fun w2 hw2 => hshape w2 (List.mem_cons_of_mem w hw2))

theorem applyHostWrites_terminated (i : String) (l : List StoreWrite) :
    ∀ h : Host, h.id = i →
    (∀ w ∈ l, w = StoreWrite.condUpdate i HostStatus.starting HostStatus.provisioning
      ∨ w = StoreWrite.setStatus i HostStatus.terminated) →
    StoreWrite.setStatus i HostStatus.terminated ∈ l →
    applyHostWrites h l = { h with status := HostStatus.terminated } := by
  induction l with
  | nil => intro h _ _ hex; cases hex
  | cons w l ih =>
    intro h hid hshape hex
    have hw := hshape w (List.mem_cons_self w l)
    cases hw with
    | inr hset =>
      subst hset
      have hstep : applyWriteHost (StoreWrite.setStatus i HostStatus.terminated) h
          = { h with status := HostStatus.terminated } := by
        simp only [applyWriteHost]
        rw [if_pos (by simp [hid])]
      simp only [applyHostWrites, List.foldl_cons, hstep]
      have := applyHostWrites_stay_terminated i l
        { h with status := HostStatus.terminated } hid rfl
        (fun w2 hw2 => hshape w2 (List.mem_cons_of_mem _ hw2))
      exact this
    | inl hcond =>
      subst hcond
      have hex2 : StoreWrite.setStatus i HostStatus.terminated ∈ l := by
        rcases List.mem_cons.mp hex with h1 | h1
        · cases h1
        · exact h1
      have hshape2 := fun w2 hw2 => hshape w2 (List.mem_cons_of_mem _ hw2)
      by_cases hc : (h.id == i && h.status == HostStatus.starting) = true
      · have hstep : applyWriteHost
            (StoreWrite.condUpdate i HostStatus.starting HostStatus.provisioning) h
            = { h with status := HostStatus.provisioning } := by
          simp only [applyWriteHost]
          rw [if_pos hc]
        simp only [applyHostWrites, List.foldl_cons, hstep]
        exact ih { h with status := HostStatus.provisioning } hid hshape2 hex2
      · have hstep : applyWriteHost
            (StoreWrite.condUpdate i HostStatus.starting HostStatus.provisioning) h
            = h := by
          simp only [applyWriteHost]
          rw [if_neg hc]
        simp only [applyHostWrites, List.foldl_cons, hstep]
        exact ih h hid hshape2 hex2

theorem applyHostWrites_passWrites (p : CloudProvider) (store : List Host)
    (h : Host) (hnd : (store.map Host.id).Nodup) (hm : h ∈ store) :
    applyHostWrites h (passWrites p (candidateHosts store))
      = { h with status := passStatus p (passKeys store) h } := by
  have hndc := candidateHosts_ids_nodup store hnd
  rw [applyHostWrites_filter_target (passWrites p (candidateHosts store)) h.id h rfl,
    passWrites_filter]
  by_cases hterm : h.status.isTerminal = true
  · have hps : passStatus p (passKeys store) h = h.status := by
      simp [passStatus, hterm]
    rw [hps]
    have hni : ∀ x ∈ candidateHosts store, ¬ x.id = h.id := by
      intro x hx hc
      have hx2 := (mem_candidateHosts store x).mp hx
      have : x = h := host_eq_of_id_eq store hnd x h hx2.1 hm hc
      rw [this] at hx2
      rw [hx2.2] at hterm
      cases hterm
    have hflat : ((planBatches (candidateHosts store)).map
        (fun b => ((processBatch p (candidateHosts store) b).1).filter
          (fun w => w.target == h.id))).flatten = [] := by
      apply List.flatten_eq_nil_iff.mpr
      intro l hl
      obtain ⟨b, _, rfl⟩ := List.mem_map.mp hl
      exact processBatch_filter_no_cand p (candidateHosts store) b h.id hni
    rw [hflat]
    rfl
  · have hc : h ∈ candidateHosts store := by
      apply (mem_candidateHosts store h).mpr
      refine ⟨hm, ?_⟩
      cases hq : h.status.isTerminal with
      | false => rfl
      | true => exact absurd hq hterm
    by_cases hnamed : namedInFailingBatch p (passKeys store) h.id = true
    · have hps : passStatus p (passKeys store) h = HostStatus.terminated := by
        simp [passStatus, hnamed, hterm]
      rw [hps]
      apply applyHostWrites_terminated h.id _ h rfl
      · intro w hw
        obtain ⟨l, hl, hwl⟩ := List.mem_flatten.mp hw
        obtain ⟨b, hb, rfl⟩ := List.mem_map.mp hl
        cases he : p.batchError b.1.1 b.1.2 with
        | none =>
          rw [processBatch_filter_ok p (candidateHosts store) b h hndc hb hc he]
            at hwl
          by_cases hcnd : hostKey h = b.1 ∧ h.status = HostStatus.starting
              ∧ p.alive h.id = true
          · rw [if_pos hcnd] at hwl
            rcases List.mem_cons.mp hwl with h1 | h1
            · exact Or.inl h1
            · cases h1
          · rw [if_neg hcnd] at hwl
            cases hwl
        | some e =>
          cases hp : parseUnknownInstanceIDs e with
          | none =>
            rw [processBatch_filter_noparse p (candidateHosts store) b h.id e he hp]
              at hwl
            cases hwl
          | some ids =>
            rw [processBatch_filter_parse p (candidateHosts store) b h e ids hndc
              hc he hp] at hwl
            by_cases hcnd : ids.contains h.id = true
            · rw [if_pos hcnd] at hwl
              rcases List.mem_cons.mp hwl with h1 | h1
              · exact Or.inr h1
              · cases h1
            · rw [if_neg hcnd] at hwl
              cases hwl
      · simp only [namedInFailingBatch, List.any_eq_true] at hnamed
        obtain ⟨k, hk, hkpred⟩ := hnamed
        obtain ⟨b, hb, rfl⟩ := List.mem_map.mp hk
        cases he : p.batchError b.1.1 b.1.2 with
        | none => rw [he] at hkpred; cases hkpred
        | some e =>
          rw [he] at hkpred
          dsimp only at hkpred
          cases hp : parseUnknownInstanceIDs e with
          | none => rw [hp] at hkpred; cases hkpred
          | some ids =>
            rw [hp] at hkpred
            dsimp only at hkpred
            apply List.mem_flatten.mpr
            refine ⟨((processBatch p (candidateHosts store) b).1).filter
              (fun w => w.target == h.id), List.mem_map_of_mem _ hb, ?_⟩
            rw [processBatch_filter_parse p (candidateHosts store) b h e ids hndc
              hc he hp, if_pos hkpred]
            exact List.mem_cons_self _ _
    · have hnamedf : namedInFailingBatch p (passKeys store) h.id = false := by
        cases hq : namedInFailingBatch p (passKeys store) h.id with
        | false => rfl
        | true => exact absurd hq hnamed
      have hnotin : ∀ b ∈ planBatches (candidateHosts store), ∀ e ids,
          p.batchError b.1.1 b.1.2 = some e →
          parseUnknownInstanceIDs e = some ids →
          ¬ ids.contains h.id = true := by
        intro b hb e ids he hp hcon
        have hk : b.1 ∈ passKeys store := List.mem_map_of_mem Prod.fst hb
        have hpred := List.any_eq_false.mp hnamedf b.1 hk
        rw [he] at hpred
        dsimp only at hpred
        rw [hp] at hpred
        dsimp only at hpred
        exact hpred hcon
      have hother : ∀ b ∈ planBatches (candidateHosts store),
          ¬ b.1 = hostKey h →
          ((processBatch p (candidateHosts store) b).1).filter
            (fun w => w.target == h.id) = [] := by
        intro b hb hne
        cases he : p.batchError b.1.1 b.1.2 with
        | none =>
          rw [processBatch_filter_ok p (candidateHosts store) b h hndc hb hc he]
          rw [if_neg]
          intro hcon
          exact hne hcon.1.symm
        | some e =>
          cases hp : parseUnknownInstanceIDs e with
          | none => exact processBatch_filter_noparse p _ b h.id e he hp
          | some ids =>
            rw [processBatch_filter_parse p (candidateHosts store) b h e ids hndc
              hc he hp]
            rw [if_neg (hnotin b hb e ids he hp)]
      rw [flatten_single_key _ (hostKey h) _
        (planBatches_keys_nodup (candidateHosts store)) hother]
      have hkeymem : hostKey h ∈ (planBatches (candidateHosts store)).map Prod.fst :=
        (mem_planBatches_keys (candidateHosts store) (hostKey h)).mpr ⟨h, hc, rfl⟩
      have hfindsome : ((planBatches (candidateHosts store)).find?
          (fun b => b.1 == hostKey h)).isSome := by
        apply List.find?_isSome.mpr
        obtain ⟨b, hb, hbk⟩ := List.mem_map.mp hkeymem
        exact ⟨b, hb, by simp [hbk]⟩
      cases hfind : (planBatches (candidateHosts store)).find?
          (fun b => b.1 == hostKey h) with
      | none => rw [hfind] at hfindsome; cases hfindsome
      | some bOwn =>
        dsimp only
        have hbOwn : bOwn ∈ planBatches (candidateHosts store) :=
          List.mem_of_find?_eq_some hfind
        have hbk : bOwn.1 = hostKey h := by
          have := List.find?_some hfind
          exact beq_iff_eq.mp this
        cases he : p.batchError (hostKey h).1 (hostKey h).2 with
        | none =>
          have heb : p.batchError bOwn.1.1 bOwn.1.2 = none := by
            rw [hbk]; exact he
          rw [processBatch_filter_ok p (candidateHosts store) bOwn h hndc hbOwn
            hc heb]
          by_cases hcnd : h.status = HostStatus.starting ∧ p.alive h.id = true
          · rw [if_pos ⟨hbk.symm, hcnd.1, hcnd.2⟩]
            have hps : passStatus p (passKeys store) h = HostStatus.provisioning := by
              simp only [passStatus, hterm, Bool.false_eq_true, if_false,
                hnamedf, if_false]
              rw [if_pos]
              simp [hcnd.1, hcnd.2, he]
            rw [hps]
            simp only [applyHostWrites, List.foldl_cons, List.foldl_nil,
              applyWriteHost]
            rw [if_pos]
            simp [hcnd.1]
          · rw [if_neg (fun hcon => hcnd ⟨hcon.2.1, hcon.2.2⟩)]
            have hps : passStatus p (passKeys store) h = h.status := by
              simp only [passStatus, hterm, Bool.false_eq_true, if_false,
                hnamedf, if_false]
              rw [if_neg]
              intro hcon
              simp only [Bool.and_eq_true, beq_iff_eq] at hcon
              exact hcnd ⟨hcon.1.1, hcon.1.2⟩
            rw [hps]
            rfl
        | some e =>
          have heb : p.batchError bOwn.1.1 bOwn.1.2 = some e := by
            rw [hbk]; exact he
          have hps : passStatus p (passKeys store) h = h.status := by
            simp only [passStatus, hterm, Bool.false_eq_true, if_false,
              hnamedf, if_false]
            rw [if_neg]
            intro hcon
            simp only [Bool.and_eq_true] at hcon
            rw [he] at hcon
            cases hcon.2
          rw [hps]
          cases hp : parseUnknownInstanceIDs e with
          | none =>
            rw [processBatch_filter_noparse p _ bOwn h.id e heb hp]
            rfl
          | some ids =>
            rw [processBatch_filter_parse p (candidateHosts store) bOwn h e ids
              hndc hc heb hp]
            rw [if_neg (hnotin bOwn hbOwn e ids heb hp)]
            rfl

theorem runPass_fst_eq (p : CloudProvider) (store : List Host)
    (hnd : (store.map Host.id).Nodup) :
    (runPass p store).1
      = store.map (fun h => { h with status := passStatus p (passKeys store) h }) := by
  simp only [runPass]
  rw [foldl_applyWrite_eq_map]
  apply List.map_eq_map_iff.mpr
  intro h hm
  exact applyHostWrites_passWrites p store h hnd hm

theorem runPass_snd_eq (p : CloudProvider) (store : List Host) :
    (runPass p store).2 = passFailures p (candidateHosts store) := rfl

theorem find?_map_keep_id (g : Host → Host) (hg : ∀ x, (g x).id = x.id)
    (store : List Host) (h : Host) (hnd : (store.map Host.id).Nodup)
    (hm : h ∈ store) :
    (store.map g).find? (fun x => x.id == h.id) = some (g h) := by
  induction store with
  | nil => cases hm
  | cons x store ih =>
    simp only [List.map_cons, List.nodup_cons] at hnd
    cases hm with
    | head =>
      simp only [List.map_cons, List.find?]
      rw [show ((g h).id == h.id) = true by simp [hg]]
    | tail _ htail =>
      have hne : ¬ x.id = h.id := by
        intro hc
        exact hnd.1 (hc ▸ List.mem_map_of_mem Host.id htail)
      simp only [List.map_cons, List.find?]
      rw [show ((g x).id == h.id) = false by simp [hg, hne]]
      exact ih hnd.2 htail

theorem statusOf_runPass (p : CloudProvider) (store : List Host) (h : Host)
    (hnd : (store.map Host.id).Nodup) (hm : h ∈ store) :
    statusOf (runPass p store).1 h.id = some (passStatus p (passKeys store) h) := by
  rw [runPass_fst_eq p store hnd]
  simp only [statusOf]
  rw [find?_map_keep_id (fun x => { x with status := passStatus p (passKeys store) x })
    (fun x => rfl) store h hnd hm]
  rfl

theorem processBatch_snd_eq_some (p : CloudProvider) (cands : List Host)
    (b : (String × String) × List String) (f : (String × String) × String) :
    (processBatch p cands b).2 = some f
      ↔ p.batchError b.1.1 b.1.2 = some f.2
          ∧ parseUnknownInstanceIDs f.2 = none ∧ f.1 = b.1 := by
  obtain ⟨fk, fe⟩ := f
  cases he : p.batchError b.1.1 b.1.2 with
  | none =>
    simp only [processBatch, fetchStatuses, he]
    constructor
    · intro hc; cases hc
    · intro hc; cases hc.1
  | some e =>
    cases hp : parseUnknownInstanceIDs e with
    | some ids =>
      simp only [processBatch, fetchStatuses, he, hp]
      constructor
      · intro hc; cases hc
      · intro hc
        obtain ⟨h1, h2, _⟩ := hc
        injection h1 with h1e
        rw [← h1e, hp] at h2
        cases h2
    | none =>
      simp only [processBatch, fetchStatuses, he, hp]
      constructor
      · intro hc
        injection hc with hc2
        have hk := congrArg Prod.fst hc2
        have hv := congrArg Prod.snd hc2
        simp only at hk hv
        refine ⟨by rw [← hv], by rw [← hv]; exact hp, hk.symm⟩
      · intro hc
        obtain ⟨h1, h2, h3⟩ := hc
        injection h1 with h1e
        rw [h3, ← h1e]

theorem mem_passFailures (p : CloudProvider) (cands : List Host)
    (f : (String × String) × String) :
    f ∈ passFailures p cands
      ↔ ∃ b ∈ planBatches cands, p.batchError b.1.1 b.1.2 = some f.2
          ∧ parseUnknownInstanceIDs f.2 = none ∧ f.1 = b.1 := by
  simp only [passFailures, List.mem_filterMap]
  constructor
  · intro hc
    obtain ⟨b, hb, hsome⟩ := hc
    exact ⟨b, hb, (processBatch_snd_eq_some p cands b f).mp hsome⟩
  · intro hc
    obtain ⟨b, hb, hrest⟩ := hc
    exact ⟨b, hb, (processBatch_snd_eq_some p cands b f).mpr hrest⟩

theorem bool_eq_false_of_ne_true {b : Bool} (h : ¬ b = true) : b = false := by
  cases b with
  | false => rfl
  | true => exact absurd rfl h

theorem map_status_ids (store : List Host) (f : Host → HostStatus) :
    ((store.map (fun h => { h with status := f h })).map Host.id)
      = store.map Host.id := by
  rw [List.map_map]
  rfl

theorem runPass_ids_nodup (p : CloudProvider) (store : List Host)
    (hnd : (store.map Host.id).Nodup) :
    (((runPass p store).1).map Host.id).Nodup := by
  rw [runPass_fst_eq p store hnd, map_status_ids]
  exact hnd

theorem passKeys_runPass_subset (p : CloudProvider) (store : List Host)
    (hnd : (store.map Host.id).Nodup) :
    ∀ k ∈ passKeys (runPass p store).1, k ∈ passKeys store := by
  intro k hk
  have hk2 := (mem_planBatches_keys (candidateHosts (runPass p store).1) k).mp hk
  obtain ⟨x, hx, hxk⟩ := hk2
  have hx2 := (mem_candidateHosts _ x).mp hx
  rw [runPass_fst_eq p store hnd] at hx2
  obtain ⟨x0, hx0, hxeq⟩ := List.mem_map.mp hx2.1
  have hx0nt : x0.status.isTerminal = false := by
    cases hq : x0.status.isTerminal with
    | false => rfl
    | true =>
      have : passStatus p (passKeys store) x0 = x0.status := by
        simp [passStatus, hq]
      rw [← hxeq] at hx2
      simp only [this] at hx2
      rw [hq] at hx2
      cases hx2.2
  apply (mem_planBatches_keys (candidateHosts store) k).mpr
  refine ⟨x0, (mem_candidateHosts store x0).mpr ⟨hx0, hx0nt⟩, ?_⟩
  have : hostKey x0 = hostKey x := by rw [← hxeq]; rfl
  rw [this, hxk]

theorem named_mono (p : CloudProvider) (ks1 ks2 : List (String × String))
    (hsub : ∀ k ∈ ks2, k ∈ ks1) (i : String)
    (h : namedInFailingBatch p ks2 i = true) :
    namedInFailingBatch p ks1 i = true := by
  simp only [namedInFailingBatch, List.any_eq_true] at h ⊢
  obtain ⟨k, hk, hkp⟩ := h
  exact ⟨k, hsub k hk, hkp⟩

theorem passStatus_second_pass (p : CloudProvider) (store : List Host)
    (hnd : (store.map Host.id).Nodup) (h0 : Host) (_hm : h0 ∈ store) :
    passStatus p (passKeys (runPass p store).1)
        { h0 with status := passStatus p (passKeys store) h0 }
      = passStatus p (passKeys store) h0 := by
  by_cases ht : h0.status.isTerminal = true
  · have h1 : passStatus p (passKeys store) h0 = h0.status := by
      simp [passStatus, ht]
    rw [h1]
    show passStatus p (passKeys (runPass p store).1) h0 = h0.status
    simp [passStatus, ht]
  · have htf := bool_eq_false_of_ne_true ht
    by_cases hn : namedInFailingBatch p (passKeys store) h0.id = true
    · have h1 : passStatus p (passKeys store) h0 = HostStatus.terminated := by
        simp [passStatus, htf, hn]
      rw [h1]
      simp [passStatus, HostStatus.isTerminal]
    · have hnf := bool_eq_false_of_ne_true hn
      have hn2 : namedInFailingBatch p (passKeys (runPass p store).1) h0.id
          = false := by
        apply bool_eq_false_of_ne_true
        intro hq
        exact hn (named_mono p (passKeys store) (passKeys (runPass p store).1)
          (passKeys_runPass_subset p store hnd) h0.id hq)
      by_cases hcnd : (h0.status == HostStatus.starting && p.alive h0.id
          && (p.batchError (hostKey h0).1 (hostKey h0).2).isNone) = true
      · have h1 : passStatus p (passKeys store) h0 = HostStatus.provisioning := by
          simp only [passStatus, htf, Bool.false_eq_true, if_false, hnf, hcnd,
            if_true]
        rw [h1]
        simp only [passStatus, HostStatus.isTerminal, Bool.false_eq_true,
          if_false]
        rw [show ({ h0 with status := HostStatus.provisioning } : Host).id
          = h0.id from rfl, hn2]
        simp only [Bool.false_eq_true, if_false]
        rw [if_neg]
        intro hq
        simp only [Bool.and_eq_true, beq_iff_eq] at hq
        cases hq.1.1
      · have hcndf := bool_eq_false_of_ne_true hcnd
        have h1 : passStatus p (passKeys store) h0 = h0.status := by
          simp only [passStatus, htf, Bool.false_eq_true, if_false, hnf, hcndf]
        rw [h1]
        show passStatus p (passKeys (runPass p store).1) h0 = h0.status
        simp only [passStatus, htf, Bool.false_eq_true, if_false, hn2, hcndf]

theorem runPass_idempotent_store (p : CloudProvider) (store : List Host)
    (hnd : (store.map Host.id).Nodup) :
    (runPass p (runPass p store).1).1 = (runPass p store).1 := by
  rw [runPass_fst_eq p (runPass p store).1 (runPass_ids_nodup p store hnd)]
  have hmap : ∀ h1 ∈ (runPass p store).1,
      { h1 with status := passStatus p (passKeys (runPass p store).1) h1 } = h1 := by
    intro h1 hm1
    rw [runPass_fst_eq p store hnd] at hm1
    obtain ⟨h0, hm0, rfl⟩ := List.mem_map.mp hm1
    rw [passStatus_second_pass p store hnd h0 hm0]
  calc ((runPass p store).1).map
        (fun h => { h with status := passStatus p (passKeys (runPass p store).1) h })
      = ((runPass p store).1).map id := List.map_eq_map_iff.mpr hmap
    _ = (runPass p store).1 := List.map_id _

theorem runPass_failures_subset (p : CloudProvider) (store : List Host)
    (hnd : (store.map Host.id).Nodup) :
    ∀ f ∈ (runPass p (runPass p store).1).2, f ∈ (runPass p store).2 := by
  intro f hf
  rw [runPass_snd_eq] at hf ⊢
  obtain ⟨b2, hb2, he, hpe, hfk⟩ :=
    (mem_passFailures p (candidateHosts (runPass p store).1) f).mp hf
  have hk2 : b2.1 ∈ passKeys (runPass p store).1 :=
    List.mem_map_of_mem Prod.fst hb2
  have hk1 := passKeys_runPass_subset p store hnd b2.1 hk2
  obtain ⟨b1, hb1, hb1k⟩ := List.mem_map.mp hk1
  apply (mem_passFailures p (candidateHosts store) f).mpr
  refine ⟨b1, hb1, ?_, hpe, ?_⟩
  · rw [hb1k]
    exact he
  · rw [hfk]
    exact hb1k.symm

theorem applyHostWrites_terminator (store : List Host)
    (hnd : (store.map Host.id).Nodup) (ids : List String) (h : Host)
    (hm : h ∈ store) :
    applyHostWrites h (terminatorWrites (candidateHosts store) ids)
      = if ids.contains h.id = true ∧ h.status.isTerminal = false then
          { h with status := HostStatus.terminated }
        else h := by
  rw [applyHostWrites_filter_target _ h.id h rfl, terminatorWrites_filter_target]
  by_cases ht : h.status.isTerminal = true
  · have hni : ∀ x ∈ candidateHosts store, ¬ x.id = h.id := by
      intro x hx hc
      have hx2 := (mem_candidateHosts store x).mp hx
      have : x = h := host_eq_of_id_eq store hnd x h hx2.1 hm hc
      rw [this] at hx2
      rw [hx2.2] at ht
      cases ht
    rw [filter_id_of_not_mem (candidateHosts store) h.id hni]
    rw [if_neg]
    · rfl
    · intro hc
      rw [ht] at hc
      cases hc.2
  · have htf := bool_eq_false_of_ne_true ht
    have hc : h ∈ candidateHosts store :=
      (mem_candidateHosts store h).mpr ⟨hm, htf⟩
    rw [filter_id_of_nodup (candidateHosts store)
      (candidateHosts_ids_nodup store hnd) h hc]
    simp only [terminatorWrites, List.filterMap_cons, List.filterMap_nil]
    by_cases hin : ids.contains h.id = true
    · rw [if_pos hin, if_pos ⟨hin, htf⟩]
      simp only [applyHostWrites, List.foldl_cons, List.foldl_nil, applyWriteHost]
      rw [if_pos (by simp)]
    · rw [if_neg hin, if_neg (fun hq => hin hq.1)]
      rfl

theorem terminateUnknownHosts_parse_eq (store : List Host) (errText : String)
    (ids : List String) (hnd : (store.map Host.id).Nodup)
    (hp : parseUnknownInstanceIDs errText = some ids) :
    terminateUnknownHosts store errText
      = (store.map (fun h =>
          if ids.contains h.id = true ∧ h.status.isTerminal = false then
            { h with status := HostStatus.terminated }
          else h), none) := by
  simp only [terminateUnknownHosts, hp]
  rw [foldl_applyWrite_eq_map]
  refine congrArg (fun l => (l, (none : Option String))) ?_
  apply List.map_eq_map_iff.mpr
  intro h hm
  exact applyHostWrites_terminator store hnd ids h hm

theorem terminateUnknownHosts_noparse (store : List Host) (errText : String)
    (hp : parseUnknownInstanceIDs errText = none) :
    terminateUnknownHosts store errText
      = (store, some ("unexpected format of unknown host error: " ++ errText)) := by
  simp only [terminateUnknownHosts, hp]

/-- Claim C1, counterexample: the claim says a host already in
`Provisioning` keeps its status unchanged by a pass, but when a failing
batch's error text names that host as an unknown instance, the pass
terminates it: on the one-host store `[p1: Provisioning]` whose batch fails
with text naming `p1`, the post-pass status of `p1` is `Terminated`, not
`Provisioning`. -/
theorem C1_counterexample :
    statusOf (runPass c1xProvider [c1xHost]).1 "p1" = some HostStatus.terminated
    ∧ c1xHost.status = HostStatus.provisioning
    ∧ ¬ HostStatus.terminated = HostStatus.provisioning := by decide

/-- Claim C1 (amended): in one pass, a `Starting` host whose own batch query
succeeds reporting it alive — and whose identifier is not recovered from any
failing batch's error text — moves to `Provisioning`; a `Provisioning` host
not so named keeps its status; a terminal host keeps its status
unconditionally; and the observed four-host scenario yields exactly the
stated post-pass statuses. -/
theorem C1_amended_theorem (p : CloudProvider) (store : List Host) (h : Host)
    (hnd : (store.map Host.id).Nodup) (hm : h ∈ store) :
    (namedInFailingBatch p (passKeys store) h.id = false →
      h.status = HostStatus.starting → p.alive h.id = true →
      p.batchError (hostKey h).1 (hostKey h).2 = none →
      statusOf (runPass p store).1 h.id = some HostStatus.provisioning)
    ∧ (namedInFailingBatch p (passKeys store) h.id = false →
      h.status = HostStatus.provisioning →
      statusOf (runPass p store).1 h.id = some HostStatus.provisioning)
    ∧ (h.status.isTerminal = true →
      statusOf (runPass p store).1 h.id = some h.status)
    ∧ (runPass mockAllAlive scenarioHosts).1 = scenarioExpected := by
  refine ⟨?_, ?_, ?_, by decide⟩
  · intro hnn hst ha hok
    rw [statusOf_runPass p store h hnd hm]
    have hps : passStatus p (passKeys store) h = HostStatus.provisioning := by
      simp only [passStatus, hst, HostStatus.isTerminal, Bool.false_eq_true,
        if_false, hnn]
      rw [if_pos]
      simp [ha, hok]
    rw [hps]
  · intro hnn hst
    rw [statusOf_runPass p store h hnd hm]
    have hps : passStatus p (passKeys store) h = HostStatus.provisioning := by
      simp only [passStatus, hst, HostStatus.isTerminal, Bool.false_eq_true,
        if_false, hnn]
      rfl
    rw [hps]
  · intro hterm
    rw [statusOf_runPass p store h hnd hm]
    have hps : passStatus p (passKeys store) h = h.status := by
      simp [passStatus, hterm]
    rw [hps]

/-- Claim C1, witness for the amended theorem: in the observed scenario,
`host-1` (Starting, reported alive, batch succeeds, not named in any error)
ends in `Provisioning`. -/
theorem C1_witness :
    statusOf (runPass mockAllAlive scenarioHosts).1 "host-1"
      = some HostStatus.provisioning :=
  (C1_amended_theorem mockAllAlive scenarioHosts
    { id := "host-1", provider := "mock", region := some "region-1",
      status := HostStatus.starting }
    (by decide) (by decide)).1 (by decide) rfl rfl rfl

/-- Claim C2: when the batch error text parses to an identifier list, the
Terminator transitions to `Terminated` exactly the hosts whose identifiers
appear in the list and that are candidates (non-terminal); identifiers with
no matching candidate host produce no change, every other host keeps its
status, and no error is reported. -/
theorem C2_theorem (store : List Host) (errText : String) (ids : List String)
    (hnd : (store.map Host.id).Nodup)
    (hp : parseUnknownInstanceIDs errText = some ids) :
    terminateUnknownHosts store errText
      = (store.map (fun h =>
          if ids.contains h.id = true ∧ h.status.isTerminal = false then
            { h with status := HostStatus.terminated }
          else h), none) :=
  terminateUnknownHosts_parse_eq store errText ids hnd hp

/-- Claim C2, witness: the two-host store of `TestTerminateUnknownHosts`
with the recorded AWS error text terminates exactly `h1` and `h2`. -/
theorem C2_witness :
    terminateUnknownHosts unknownScenarioHosts awsUnknownHostsError
      = ([ { id := "h1", provider := "", region := none,
             status := HostStatus.terminated },
           { id := "h2", provider := "", region := none,
             status := HostStatus.terminated } ], none) := by
  rw [C2_theorem unknownScenarioHosts awsUnknownHostsError ["h1", "h2"]
    (by decide) (by decide)]
  decide

/-- Claim C3: when no identifier list can be recovered from the error text,
the Terminator changes no host record and reports the failure; at pass
level, a batch failing with such text is recorded among the pass failures
rather than silently dropped. -/
theorem C3_theorem (p : CloudProvider) (store : List Host) (errText : String)
    (hp : parseUnknownInstanceIDs errText = none) :
    (terminateUnknownHosts store errText).1 = store
    ∧ (terminateUnknownHosts store errText).2
        = some ("unexpected format of unknown host error: " ++ errText)
    ∧ (∀ b ∈ planBatches (candidateHosts store),
        p.batchError b.1.1 b.1.2 = some errText →
        (b.1, errText) ∈ (runPass p store).2) := by
  refine ⟨?_, ?_, ?_⟩
  · rw [terminateUnknownHosts_noparse store errText hp]
  · rw [terminateUnknownHosts_noparse store errText hp]
  · intro b hb he
    rw [runPass_snd_eq]
    exact (mem_passFailures p (candidateHosts store) (b.1, errText)).mpr
      ⟨b, hb, he, hp, rfl⟩

/-- Claim C3, witness: a plain transient error text is unparseable, so the
Terminator leaves the two-host store untouched. -/
theorem C3_witness :
    (terminateUnknownHosts unknownScenarioHosts "connection timeout").1
      = unknownScenarioHosts :=
  (C3_theorem mockAllAlive unknownScenarioHosts "connection timeout"
    (by decide)).1

/-- Claim C7: on the two candidate hosts `h1`, `h2` (inserted with no
explicit status, modelled as the initial state) and a batch failure naming
both as nonexistent, the Terminator reports no error and both hosts end
`Terminated`; the full pass also completes with both terminated and no
recorded failure. -/
theorem C7_theorem :
    terminateUnknownHosts unknownScenarioHosts awsUnknownHostsError
      = ([ { id := "h1", provider := "", region := none,
             status := HostStatus.terminated },
           { id := "h2", provider := "", region := none,
             status := HostStatus.terminated } ], none)
    ∧ (runPass c7Provider unknownScenarioHosts).1
      = [ { id := "h1", provider := "", region := none,
            status := HostStatus.terminated },
          { id := "h2", provider := "", region := none,
            status := HostStatus.terminated } ]
    ∧ (runPass c7Provider unknownScenarioHosts).2 = [] := by decide

/-- Claim C4: with the same provider-reported state and no intervening
writes, a second reconciliation pass leaves every host record exactly as
the first pass left it, and records no failure that the first pass did not
already record. -/
theorem C4_theorem (p : CloudProvider) (store : List Host)
    (hnd : (store.map Host.id).Nodup) :
    (runPass p (runPass p store).1).1 = (runPass p store).1
    ∧ ∀ f ∈ (runPass p (runPass p store).1).2, f ∈ (runPass p store).2 :=
  ⟨runPass_idempotent_store p store hnd, runPass_failures_subset p store hnd⟩

/-- Claim C4, witness: a second pass over the four-host scenario changes
nothing. -/
theorem C4_witness :
    (runPass mockAllAlive (runPass mockAllAlive scenarioHosts).1).1
      = (runPass mockAllAlive scenarioHosts).1 :=
  (C4_theorem mockAllAlive scenarioHosts (by decide)).1

/-- Claim C5, counterexample: the claim says every host of a successful
batch B is reconciled exactly as it would be had failing batch A not
failed; but when A's error text names a host of B as an unknown instance,
that host ends `Terminated` instead of `Provisioning`: here batch (m, r2)
succeeds, batch (m, r1) fails naming `b1`, and `b1` ends `Terminated`
although it ends `Provisioning` when A does not fail. -/
theorem C5_counterexample :
    c5ProviderFail.batchError "m" "r2" = none
    ∧ statusOf (runPass c5ProviderFail c5Hosts).1 "b1"
        = some HostStatus.terminated
    ∧ statusOf (runPass c5ProviderOk c5Hosts).1 "b1"
        = some HostStatus.provisioning
    ∧ ¬ HostStatus.terminated = HostStatus.provisioning := by decide

/-- Claim C5 (amended): a non-terminal host whose own batch query succeeds
and whose identifier is not recovered from any failing batch's error text
is reconciled exactly as if no batch had failed (Starting-and-alive becomes
Provisioning, anything else keeps its status); and the pass completes,
every recorded failure being a batch whose provider error text is
unparseable. -/
theorem C5_amended_theorem (p : CloudProvider) (store : List Host) (h : Host)
    (hnd : (store.map Host.id).Nodup) (hm : h ∈ store)
    (hterm : h.status.isTerminal = false)
    (hok : p.batchError (hostKey h).1 (hostKey h).2 = none)
    (hnn : namedInFailingBatch p (passKeys store) h.id = false) :
    statusOf (runPass p store).1 h.id
      = some (if h.status == HostStatus.starting && p.alive h.id then
          HostStatus.provisioning
        else h.status)
    ∧ ∀ f ∈ (runPass p store).2,
        p.batchError f.1.1 f.1.2 = some f.2
          ∧ parseUnknownInstanceIDs f.2 = none := by
  constructor
  · rw [statusOf_runPass p store h hnd hm]
    have hps : passStatus p (passKeys store) h
        = (if h.status == HostStatus.starting && p.alive h.id then
            HostStatus.provisioning
          else h.status) := by
      simp only [passStatus, hterm, Bool.false_eq_true, if_false, hnn, hok,
        Option.isNone_none, Bool.and_true]
    rw [hps]
  · intro f hf
    rw [runPass_snd_eq] at hf
    obtain ⟨b, _, he, hpe, hfk⟩ :=
      (mem_passFailures p (candidateHosts store) f).mp hf
    rw [hfk]
    exact ⟨he, hpe⟩

/-- Claim C5, witness for the amended theorem: `a1` in the all-success run
is reconciled to `Provisioning`. -/
theorem C5_witness :
    statusOf (runPass c5ProviderOk c5Hosts).1 "a1"
      = some HostStatus.provisioning :=
  ((C5_amended_theorem c5ProviderOk c5Hosts
    { id := "a1", provider := "m", region := some "r1",
      status := HostStatus.starting }
    (by decide) (by decide) rfl rfl (by decide)).1).trans (by decide)

/-- Claim C6: over any store with distinct identifiers, each batch of the
planner holds, in input order, exactly the identifiers of the candidate
hosts with that (provider, region) key; batch keys are pairwise distinct;
every non-terminal host appears in exactly one planned batch; and a host
without provider settings is keyed under the empty region for its
provider. -/
theorem C6_theorem (store : List Host) (hnd : (store.map Host.id).Nodup) :
    (∀ b ∈ planBatches (candidateHosts store),
      b.2 = ((candidateHosts store).filter
        (fun h => hostKey h == b.1)).map Host.id)
    ∧ ((planBatches (candidateHosts store)).map Prod.fst).Nodup
    ∧ (∀ h ∈ store, h.status.isTerminal = false →
      ∃! b, b ∈ planBatches (candidateHosts store) ∧ h.id ∈ b.2)
    ∧ (∀ h : Host, h.region = none → hostKey h = (h.provider, "")) := by
  refine ⟨?_, planBatches_keys_nodup (candidateHosts store), ?_, ?_⟩
  · intro b hb
    exact mem_planBatches_eq (candidateHosts store) b hb
  · intro h hm hterm
    have hndc := candidateHosts_ids_nodup store hnd
    have hc : h ∈ candidateHosts store :=
      (mem_candidateHosts store h).mpr ⟨hm, hterm⟩
    have hkey : hostKey h ∈ (planBatches (candidateHosts store)).map Prod.fst :=
      (mem_planBatches_keys (candidateHosts store) (hostKey h)).mpr ⟨h, hc, rfl⟩
    obtain ⟨bOwn, hbOwn, hbk⟩ := List.mem_map.mp hkey
    refine ⟨bOwn, ⟨hbOwn, ?_⟩, ?_⟩
    · exact (mem_batch_iff (candidateHosts store) hndc h hc bOwn hbOwn).mpr
        hbk.symm
    · intro b2 hb2
      have hk2 : hostKey h = b2.1 :=
        (mem_batch_iff (candidateHosts store) hndc h hc b2 hb2.1).mp hb2.2
      exact List.inj_on_of_nodup_map
        (planBatches_keys_nodup (candidateHosts store)) hb2.1 hbOwn
        (by rw [← hk2, hbk])
  · intro h hr
    simp [hostKey, hr]

/-- Claim C6, witness: in the four-host scenario the planner facts hold,
for instance the batch keys are pairwise distinct. -/
theorem C6_witness :
    ((planBatches (candidateHosts scenarioHosts)).map Prod.fst).Nodup :=
  (C6_theorem scenarioHosts (by decide)).2.1

/-- Claim C8, counterexample: the claim says every status write the engine
issues is a conditional update keyed on (host identifier, expected prior
status); but the unknown-instance termination writes of the pass over the
`TestTerminateUnknownHosts` scenario are keyed on the host identifier
alone, independent of any expected prior status. -/
theorem C8_counterexample :
    ((passWrites c7Provider (candidateHosts unknownScenarioHosts)).all
        StoreWrite.isConditional) = false
    ∧ passWrites c7Provider (candidateHosts unknownScenarioHosts)
      = [StoreWrite.setStatus "h1" HostStatus.terminated,
         StoreWrite.setStatus "h2" HostStatus.terminated] := by decide

/-- Claim C8 (amended): every reconciliation write is a conditional update
keyed on (host identifier, expected prior status `Starting`); every
unknown-instance termination write is keyed on the host identifier alone
and sets `Terminated` regardless of prior status; a conditional update
whose expected-prior-status check fails leaves the store unchanged; and the
recorded failures of a pass come only from unparseable provider batch
errors, never from store writes. -/
theorem C8_amended_theorem :
    (∀ (cands : List Host) (result : List (String × Bool)) (w : StoreWrite),
      w ∈ reconcileWrites cands result →
      ∃ i, w = StoreWrite.condUpdate i HostStatus.starting
        HostStatus.provisioning)
    ∧ (∀ (cands : List Host) (ids : List String) (w : StoreWrite),
      w ∈ terminatorWrites cands ids →
      ∃ i, w = StoreWrite.setStatus i HostStatus.terminated)
    ∧ (∀ (store : List Host) (i : String) (e s : HostStatus),
      (∀ x ∈ store, x.id = i → ¬ x.status = e) →
      applyWrite store (StoreWrite.condUpdate i e s) = store)
    ∧ (∀ (p : CloudProvider) (store : List Host)
        (f : (String × String) × String), f ∈ (runPass p store).2 →
      p.batchError f.1.1 f.1.2 = some f.2
        ∧ parseUnknownInstanceIDs f.2 = none) := by
  refine ⟨?_, ?_, ?_, ?_⟩
  · intro cands result w hw
    simp only [reconcileWrites] at hw
    obtain ⟨r, _, hr⟩ := List.mem_filterMap.mp hw
    cases hfind : cands.find? (fun h => h.id == r.1) with
    | none => rw [hfind] at hr; cases hr
    | some x =>
      rw [hfind] at hr
      dsimp only at hr
      by_cases hcnd : (x.status == HostStatus.starting && r.2) = true
      · rw [if_pos hcnd] at hr
        cases hr
        exact ⟨r.1, rfl⟩
      · rw [if_neg hcnd] at hr
        cases hr
  · intro cands ids w hw
    simp only [terminatorWrites] at hw
    obtain ⟨x, _, hr⟩ := List.mem_filterMap.mp hw
    by_cases hcnd : ids.contains x.id = true
    · rw [if_pos hcnd] at hr
      cases hr
      exact ⟨x.id, rfl⟩
    · rw [if_neg hcnd] at hr
      cases hr
  · intro store i e s hno
    simp only [applyWrite]
    calc store.map (applyWriteHost (StoreWrite.condUpdate i e s))
        = store.map id := by
          apply List.map_eq_map_iff.mpr
          intro x hx
          simp only [applyWriteHost, id_eq]
          rw [if_neg]
          simp only [Bool.and_eq_true, beq_iff_eq]
          intro hc
          exact hno x hx hc.1 hc.2
      _ = store := List.map_id store
  · intro p store f hf
    rw [runPass_snd_eq] at hf
    obtain ⟨b, _, he, hpe, hfk⟩ :=
      (mem_passFailures p (candidateHosts store) f).mp hf
    rw [hfk]
    exact ⟨he, hpe⟩

/-- Claim C8, witness for the amended theorem: a conditional update whose
expected prior status does not match (expecting `Starting` on a
`Provisioning` host) leaves the store unchanged. -/
theorem C8_witness :
    applyWrite [c1xHost]
        (StoreWrite.condUpdate "p1" HostStatus.starting HostStatus.terminated)
      = [c1xHost] :=
  C8_amended_theorem.2.2.1 [c1xHost] "p1" HostStatus.starting
    HostStatus.terminated (by decide)

/-- Claim C9: for every service revision, building the API revision and
converting it back to the service model preserves the `Author` and
`AuthorGithubUID` fields, and both directions report a nil error. -/
theorem C9_theorem (t : ServiceRevision) :
    (APIRevision.BuildFromService t).2 = none
    ∧ ((APIRevision.BuildFromService t).1.ToService).2 = none
    ∧ ((APIRevision.BuildFromService t).1.ToService).1.Author = t.Author
    ∧ ((APIRevision.BuildFromService t).1.ToService).1.AuthorGithubUID
        = t.AuthorGithubUID :=
  ⟨rfl, rfl, rfl, rfl⟩

/-- Claim C10: when the version lookup succeeds but finds no record,
`versionGetHistory` returns the error naming the version id and never a
successful (even empty) version list. -/
theorem C10_theorem (db : VersionStore) (versionId : String) (n : Int)
    (hfind : db.findOne versionId = Except.ok none) :
    versionGetHistory db versionId n
      = Except.error
          ("Version " ++ quoteStr ++ versionId ++ quoteStr ++ " not found")
    ∧ ∀ l : List VersionRec,
        ¬ versionGetHistory db versionId n = Except.ok l := by
  have h1 : versionGetHistory db versionId n
      = Except.error
          ("Version " ++ quoteStr ++ versionId ++ quoteStr ++ " not found") := by
    simp [versionGetHistory, hfind]
  refine ⟨h1, ?_⟩
  intro l hc
  rw [h1] at hc
  cases hc

/-- Claim C10, witness: on a concrete store with a succeeding-but-empty
lookup, the history query errors out naming the version. -/
theorem C10_witness :
    versionGetHistory emptyVersionStore "v1" 5
      = Except.error
          ("Version " ++ quoteStr ++ "v1" ++ quoteStr ++ " not found") :=
  (C10_theorem emptyVersionStore "v1" 5 rfl).1

/-- Claim C9, witness: a concrete service revision round-trips its two
mapped fields with nil errors. -/
theorem C9_witness :
    (APIRevision.BuildFromService
        { Author := "ann", AuthorGithubUID := 42, AuthorEmail := "a" }).2 = none
    ∧ ((APIRevision.BuildFromService
        { Author := "ann", AuthorGithubUID := 42,
          AuthorEmail := "a" }).1.ToService).1.Author = "ann" :=
  ⟨(C9_theorem { Author := "ann", AuthorGithubUID := 42, AuthorEmail := "a" }).1,
   (C9_theorem { Author := "ann", AuthorGithubUID := 42, AuthorEmail := "a" }).2.2.1⟩
